import Mathlib

/-!
Verification development for the filesystem persistence adapter
(src/module.persistence.filesystem.js) and, for the parts of the repository
that are not under src/, the debounced write-back scheduler and store facade
described by the specification.

The adapter is a JavaScript module; we shallowly embed the JavaScript values
it manipulates (JSON data plus the undefined value), the filesystem it talks
to (a map from paths to file slots, with an event trace recording the
filesystem calls an operation performs), and each operation function of the
source as a pure Lean function from a filesystem state to a new state, an
event trace and a result (or a thrown error).
-/

/-! ## JavaScript character classes and the validation helpers of the source -/

/-- Whitespace characters of the JavaScript regexp class backslash-s
(the ASCII members; the adapter only ever meets ASCII ids and keys). -/
def isJsWhitespace (c : Char) : Bool :=
  c = ' ' || c = '\t' || c = '\n' || c = '\r' || c = '\x0b' || c = '\x0c'

/-- Word characters of the JavaScript regexp class backslash-w. -/
def isWordChar (c : Char) : Bool :=
  c.isAlphanum || c = '_'

/-- Source function is_nonempty_key: regex_nonempty_key.test(value), i.e. the
string holds at least one nonspace character. -/
def is_nonempty_key (s : String) : Bool :=
  s.toList.any (fun c => !isJsWhitespace c)

/-- First alternative of regex_semantic_id: a full http or https IRI,
anchored, with one or more nonspace characters after the scheme. -/
def matchHttpUrl (cs : List Char) : Bool :=
  if cs.take 7 = "http://".toList then
    !(cs.drop 7).isEmpty && (cs.drop 7).all (fun c => !isJsWhitespace c)
  else if cs.take 8 = "https://".toList then
    !(cs.drop 8).isEmpty && (cs.drop 8).all (fun c => !isJsWhitespace c)
  else false

/-- Second alternative of regex_semantic_id: one or more word characters,
a colon, then one or more nonspace characters, anchored. -/
def matchPrefixedId (cs : List Char) : Bool :=
  match cs.drop (cs.takeWhile (fun c => c ≠ ':')).length with
  | ':' :: post =>
      !(cs.takeWhile (fun c => c ≠ ':')).isEmpty
        && (cs.takeWhile (fun c => c ≠ ':')).all isWordChar
        && !post.isEmpty && post.all (fun c => !isJsWhitespace c)
  | _ => false

/-- Source function is_semantic_id: regex_semantic_id.test(value). -/
def is_semantic_id (s : String) : Bool :=
  matchHttpUrl s.toList || matchPrefixedId s.toList

/-! ## JavaScript values

JSON values plus the undefined value. An array value additionally carries its
expando properties (string-keyed properties assigned onto the array object);
JSON.parse always produces arrays with no expando properties, and
JSON.stringify drops them again. -/

inductive JsValue : Type where
  | undef
  | null
  | bool (b : Bool)
  | num (n : Int)
  | str (s : String)
  | arr (elems : List JsValue) (props : List (String × JsValue))
  | obj (fields : List (String × JsValue))

/-- JavaScript truthiness. -/
def jsTruthy : JsValue → Bool
  | .undef => false
  | .null => false
  | .bool b => b
  | .num n => n ≠ 0
  | .str s => s ≠ ""
  | .arr _ _ => true
  | .obj _ => true

/-- JavaScript strict equality as the adapter uses it (includes / indexOf on
the predicate arrays). Primitive values compare by value; two separately
constructed objects or arrays are never strictly equal, and the adapter never
compares aliased references, so object and array comparisons yield false. -/
def jsStrictEq : JsValue → JsValue → Bool
  | .undef, .undef => true
  | .null, .null => true
  | .bool a, .bool b => a == b
  | .num a, .num b => a == b
  | .str a, .str b => a == b
  | _, _ => false

/-- Lookup of a key in a field list (JavaScript objects have unique keys, so
first match suffices). -/
def fieldLookup : List (String × JsValue) → String → Option JsValue
  | [], _ => none
  | kv :: rest, k => if kv.1 == k then some kv.2 else fieldLookup rest k

/-- Property read json[k] as the adapter performs it: on an object the field,
on an array an expando property (never an index: the adapter only reads
semantic-id and at-sign keys), undefined otherwise. The adapter only reads
properties of truthy values. -/
def jsGet : JsValue → String → JsValue
  | .obj fields, k => (fieldLookup fields k).getD JsValue.undef
  | .arr _ props, k => (fieldLookup props k).getD JsValue.undef
  | _, _ => JsValue.undef

/-- Replace the value of key k, or append the pair when k is absent. -/
def setField : List (String × JsValue) → String → JsValue → List (String × JsValue)
  | [], k, v => [(k, v)]
  | kv :: rest, k, v => if kv.1 == k then (k, v) :: rest else kv :: setField rest k v

/-- Remove the entry of key k (JavaScript objects have unique keys). -/
def eraseField : List (String × JsValue) → String → List (String × JsValue)
  | [], _ => []
  | kv :: rest, k => if kv.1 == k then rest else kv :: eraseField rest k

/-- Property write json[k] = v: objects take the field, arrays take an
expando property, and a write to a primitive is silently ignored in
non-strict mode. -/
def jsSet : JsValue → String → JsValue → JsValue
  | .obj fields, k, v => .obj (setField fields k v)
  | .arr elems props, k, v => .arr elems (setField props k v)
  | other, _, _ => other

/-- Property removal delete json[k]. -/
def jsDelete : JsValue → String → JsValue
  | .obj fields, k => .obj (eraseField fields k)
  | .arr elems props, k => .arr elems (eraseField props k)
  | other, _ => other

/-- Array.prototype.includes with strict-equality matching. -/
def arrIncludes (l : List JsValue) (x : JsValue) : Bool :=
  l.any (fun e => jsStrictEq e x)

/-- Array.prototype.indexOf: the index of the first strictly equal element,
or minus one. -/
def arrIndexOf : List JsValue → JsValue → Int
  | [], _ => -1
  | e :: rest, x =>
      if jsStrictEq e x then 0
      else
        let i := arrIndexOf rest x
        if i < 0 then (-1 : Int) else i + 1

def isUndefV : JsValue → Bool
  | .undef => true
  | _ => false

def isBoolV : JsValue → Bool
  | .bool _ => true
  | _ => false

def isNumV : JsValue → Bool
  | .num _ => true
  | _ => false

def isStrV : JsValue → Bool
  | .str _ => true
  | _ => false

/-- Source function is_primitive_value: null, a boolean, number or string, or
an array whose elements all have one of those three typeof results. -/
def is_primitive_value (v : JsValue) : Bool :=
  match v with
  | .null => true
  | .bool _ => true
  | .num _ => true
  | .str _ => true
  | .arr elems _ => elems.all isBoolV || elems.all isNumV || elems.all isStrV
  | _ => false

mutual

/-- JavaScript string coercion String(v), used by the regexp tests and by
property keys. -/
def jsToStr : JsValue → String
  | .undef => "undefined"
  | .null => "null"
  | .bool b => cond b "true" "false"
  | .num n => toString n
  | .str s => s
  | .obj _ => "[object Object]"
  | .arr elems _ => jsArrJoin elems
termination_by v => (sizeOf v, 0)
decreasing_by all_goals ((try simp_wf) <;> (try omega))

/-- Array.prototype.toString: elements coerced and joined with commas. -/
def jsArrJoin : List JsValue → String
  | [] => ""
  | [e] => jsElemToStr e
  | e :: rest => jsElemToStr e ++ "," ++ jsArrJoin rest
termination_by l => (sizeOf l, 2)
decreasing_by all_goals ((try simp_wf) <;> (try omega))

/-- Element coercion inside Array.prototype.join: null and undefined become
the empty string. -/
def jsElemToStr : JsValue → String
  | .undef => ""
  | .null => ""
  | v => jsToStr v
termination_by v => (sizeOf v, 1)
decreasing_by all_goals ((try simp_wf) <;> (try omega))

end

mutual

/-- Composite of JSON.stringify and a later JSON.parse as the adapter applies
them at every file write: expando properties of arrays are dropped, undefined
array elements serialize as null, undefined-valued object fields are dropped. -/
def jsNormalize : JsValue → JsValue
  | .undef => .undef
  | .null => .null
  | .bool b => .bool b
  | .num n => .num n
  | .str s => .str s
  | .arr elems _ => .arr (normElems elems) []
  | .obj fields => .obj (normPairs fields)
termination_by v => sizeOf v
decreasing_by all_goals ((try simp_wf) <;> (try omega))

def normElems : List JsValue → List JsValue
  | [] => []
  | .undef :: rest => .null :: normElems rest
  | e :: rest => jsNormalize e :: normElems rest
termination_by l => sizeOf l
decreasing_by all_goals ((try simp_wf) <;> (try omega))

def normPairs : List (String × JsValue) → List (String × JsValue)
  | [] => []
  | (_, .undef) :: rest => normPairs rest
  | (k, v) :: rest => (k, jsNormalize v) :: normPairs rest
termination_by l => sizeOf l
decreasing_by all_goals ((try simp_wf) <;> (try omega))

end

/-- Object.entries as operation_fs_read applies it to a truthy parsed value:
fields of an object, index entries plus expando properties of an array, index
entries of a string, nothing for the remaining primitives. -/
def jsEntries : JsValue → List (String × JsValue)
  | .obj fields => fields
  | .arr elems props => (elems.enum.map (fun p => (toString p.1, p.2))) ++ props
  | .str s => s.toList.enum.map (fun p => (toString p.1, .str (String.mk [p.2])))
  | _ => []

/-! ## Paths

get_file_path joins the configured root folder with the base64 encoding of
the subject name (utf8 bytes) plus the ".json" extension. -/

def base64Table : List Char :=
  "ABCDEFGHIJKLMNOPQRSTUVWXYZabcdefghijklmnopqrstuvwxyz0123456789+/".toList

def base64Digit (n : Nat) : Char := base64Table.getD n 'A'

def base64Chunks : List Nat → List Char
  | [] => []
  | [a] => [base64Digit (a / 4), base64Digit (a % 4 * 16), '=', '=']
  | [a, b] => [base64Digit (a / 4), base64Digit (a % 4 * 16 + b / 16),
      base64Digit (b % 16 * 4), '=']
  | a :: b :: c :: rest =>
      base64Digit (a / 4) :: base64Digit (a % 4 * 16 + b / 16) ::
      base64Digit (b % 16 * 4 + c / 64) :: base64Digit (c % 64) :: base64Chunks rest

def base64Encode (bytes : List Nat) : String := String.mk (base64Chunks bytes)

/-- Utf8 encoding of one character (Buffer.from uses utf8). -/
def utf8EncodeCharNat (c : Char) : List Nat :=
  let n := c.toNat
  if n < 128 then [n]
  else if n < 2048 then [192 + n / 64, 128 + n % 64]
  else if n < 65536 then [224 + n / 4096, 128 + n / 64 % 64, 128 + n % 64]
  else [240 + n / 262144, 128 + n / 4096 % 64, 128 + n / 64 % 64, 128 + n % 64]

def utf8Bytes (s : String) : List Nat := s.toList.flatMap utf8EncodeCharNat

/-- Path.join of the root folder and a file name, for a root without a
trailing separator. -/
def path_join (a b : String) : String := a ++ "/" ++ b

/-- Source function get_file_path. -/
def get_file_path (root_folder name : String) : String :=
  path_join root_folder (base64Encode (utf8Bytes name) ++ ".json")

/-! ## The filesystem model

A filesystem state maps each path to a slot. The adapter reads whole files
and parses them, so a readable file is modelled by its parsed value; corrupt
stands for an existing file whose bytes are not valid JSON; faulty stands for
a path whose access fails with the given system error code (fault
injection for the error-propagation claims). An event trace records the
filesystem calls an operation performed; a write event carries the stored
content and is recorded only when content is actually stored. -/

inductive FsEvent : Type where
  | readEv (path : String)
  | writeEv (path : String) (content : JsValue)
  | statEv (path : String)
  | unlinkEv (path : String)

inductive FileSlot : Type where
  | absent
  | present (content : JsValue)
  | corrupt
  | faulty (code : String)

def FsState : Type := List (String × FileSlot)

def fsGet : FsState → String → FileSlot
  | [], _ => .absent
  | e :: rest, p => if e.1 == p then e.2 else fsGet rest p

def fsSet : FsState → String → FileSlot → FsState
  | [], p, s => [(p, s)]
  | e :: rest, p, s => if e.1 == p then (p, s) :: rest else e :: fsSet rest p s

/-- Error codes used by the source (Fs_errCodes). -/
def Fs_errCodes_not_found : String := "ENOENT"

def Fs_errCodes_do_exist : String := "EEXIST"

/-- Errors an operation can throw (reject with). -/
inductive JsErr : Type where
  | assertErr (msg : String)
  | fsErr (code : String)
  | parseErr
  | typeErr

/-- Outcome of an adapter operation: the filesystem state afterwards, the
trace of filesystem calls it performed, and its result or thrown error. -/
def OpOut : Type := FsState × List FsEvent × Except JsErr JsValue

/-- Source helper assert: a falsy check throws an Error with the prefixed
message; nothing on the filesystem has been touched by then. -/
def assertFail (msg : String) (st : FsState) : OpOut :=
  (st, [], .error (.assertErr ("filesystem_adapter : " ++ msg)))

/-- request_fs("readFile", path, flag r) followed by JSON.parse of the
buffer, as every read site of the source performs it. -/
def fs_readParse (st : FsState) (path : String) : List FsEvent × Except JsErr JsValue :=
  match fsGet st path with
  | .present v => ([.readEv path], .ok v)
  | .corrupt => ([.readEv path], .error .parseErr)
  | .absent => ([.readEv path], .error (.fsErr Fs_errCodes_not_found))
  | .faulty c => ([.readEv path], .error (.fsErr c))

/-- request_fs("writeFile", path, JSON.stringify(v), flag w): the file is
replaced by the serialized value (write failures are not modelled; no claim
depends on them). -/
def fs_write (st : FsState) (path : String) (v : JsValue) : FsState × List FsEvent :=
  (fsSet st path (.present (jsNormalize v)), [.writeEv path (jsNormalize v)])

/-- Shared catch idiom of the source: if err.code equals ENOENT resolve with
the fallback value, otherwise rethrow. -/
def notFoundTo (st : FsState) (evs : List FsEvent) (e : JsErr) (fallback : JsValue) : OpOut :=
  match e with
  | .fsErr c =>
      if c == Fs_errCodes_not_found then (st, evs, .ok fallback)
      else (st, evs, .error (.fsErr c))
  | e => (st, evs, .error e)

/-! ## The adapter operations

Each operation_fs function of the source becomes a function of the root
folder, the filesystem state and its arguments. Arguments keep the types the
source documents and dynamically checks (subjects, predicates and objects are
strings; the READ key and the UPDATE value and type may be any value). -/

/-- Source function operation_fs_exist. -/
def operation_fs_exist (root : String) (st : FsState) (subject : String) : OpOut :=
  if is_semantic_id subject then
    let path := get_file_path root subject
    match fsGet st path with
    | .absent => (st, [.statEv path], .ok (.bool false))
    | .faulty c =>
        if c == Fs_errCodes_not_found then (st, [.statEv path], .ok (.bool false))
        else (st, [.statEv path], .error (.fsErr c))
    | _ => (st, [.statEv path], .ok (.bool true))
  else assertFail ("operation_exist : invalid {SemanticID} subject <" ++ subject ++ ">") st

/-- The initial resource object CREATE writes. -/
def initResource (subject : String) : JsValue :=
  .obj [("@id", .str subject), ("@type", .arr [.str "rdfs:Resource"] [])]

/-- Source function operation_fs_create: exclusive write with flag wx; an
EEXIST error resolves to false, leaving the file untouched. -/
def operation_fs_create (root : String) (st : FsState) (subject : String) : OpOut :=
  if is_semantic_id subject then
    let path := get_file_path root subject
    match fsGet st path with
    | .absent =>
        (fsSet st path (.present (jsNormalize (initResource subject))),
         [.writeEv path (jsNormalize (initResource subject))], .ok (.bool true))
    | .present _ => (st, [], .ok (.bool false))
    | .corrupt => (st, [], .ok (.bool false))
    | .faulty c =>
        if c == Fs_errCodes_do_exist then (st, [], .ok (.bool false))
        else (st, [], .error (.fsErr c))
  else assertFail ("operation_create : invalid {SemanticID} subject <" ++ subject ++ ">") st

/-- Source function operation_fs_read_subject: read and parse the file,
coalesce a falsy parse to null, turn ENOENT into null, rethrow the rest. -/
def operation_fs_read_subject (root : String) (st : FsState) (subject : String) : OpOut :=
  if is_semantic_id subject then
    match fs_readParse st (get_file_path root subject) with
    | (evs, .ok v) => (st, evs, .ok (if jsTruthy v then v else .null))
    | (evs, .error e) => notFoundTo st evs e .null
  else assertFail ("operation_read_subject : invalid {SemanticID} subject <" ++ subject ++ ">") st

/-- Source function operation_fs_read_type. -/
def operation_fs_read_type (root : String) (st : FsState) (subject : String) : OpOut :=
  if is_semantic_id subject then
    match operation_fs_read_subject root st subject with
    | (st1, evs, .ok v) => (st1, evs, .ok (if jsTruthy v then jsGet v "@type" else .null))
    | e => e
  else assertFail ("operation_read_type : invalid {SemanticID} subject <" ++ subject ++ ">") st

/-- Source function operation_fs_read: a falsy key reads the whole subject,
the key "@type" delegates to READ_type, otherwise the requested keys are
looked up in the entries of the parsed resource, with null for a missing
key, and a single key returns its value alone. -/
def operation_fs_read (root : String) (st : FsState) (subject : String) (key : JsValue) : OpOut :=
  if jsTruthy key = false then operation_fs_read_subject root st subject
  else if (match key with | .str s => s == "@type" | _ => false) then
    operation_fs_read_type root st subject
  else if is_semantic_id subject then
    let isArr : Bool := match key with | .arr _ _ => true | _ => false
    let keyArr : List JsValue := match key with | .arr xs _ => xs | k => [k]
    if keyArr.all (fun k => is_nonempty_key (jsToStr k)) then
      match operation_fs_read_subject root st subject with
      | (st1, evs, .ok v) =>
          if jsTruthy v then
            let entries := jsEntries v
            let valueArr := keyArr.map (fun k =>
              match k with
              | .str s => (fieldLookup entries s).getD .null
              | _ => .null)
            (st1, evs, .ok (if isArr then .arr valueArr [] else valueArr.headD .null))
          else (st1, evs, .ok .null)
      | e => e
    else assertFail "operation_read : {String|Array<String>} key is empty" st
  else assertFail ("operation_read : invalid {SemanticID} subject <" ++ subject ++ ">") st

/-- Source function operation_fs_update_predicate: read the resource, ensure
json[predicate] is an array, and only when the object is not yet included
push it and write the file back. A file parsing to a falsy value or a
missing file resolves to false. -/
def operation_fs_update_predicate (root : String) (st : FsState)
    (subject predicate object : String) : OpOut :=
  if is_semantic_id subject then
  if is_semantic_id predicate then
  if is_semantic_id object then
    let path := get_file_path root subject
    match fs_readParse st path with
    | (evs, .ok v0) =>
        if jsTruthy v0 then
          let json := v0
          let json1 :=
            match jsGet json predicate with
            | .arr _ _ => json
            | _ => jsSet json predicate (.arr [] [])
          match jsGet json1 predicate with
          | .arr elems props =>
              if arrIncludes elems (.str object) then (st, evs, .ok (.bool true))
              else
                let json2 := jsSet json1 predicate (.arr (elems ++ [.str object]) props)
                let w := fs_write st path json2
                (w.1, evs ++ w.2, .ok (.bool true))
          | _ => (st, evs, .error .typeErr)
        else (st, evs, .ok (.bool false))
    | (evs, .error e) => notFoundTo st evs e (.bool false)
  else assertFail ("operation_update_predicate : invalid {SemanticID} object <" ++ object ++ ">") st
  else assertFail ("operation_update_predicate : invalid {SemanticID} predicate <" ++ predicate ++ ">") st
  else assertFail ("operation_update_predicate : invalid {SemanticID} subject <" ++ subject ++ ">") st

/-- Source function operation_fs_update_type: normalize the type argument to
an array, require every element to test as a semantic id, append
"rdfs:Resource" when missing, then overwrite json["@type"] and always write
the file back. -/
def operation_fs_update_type (root : String) (st : FsState) (subject : String)
    (ty : JsValue) : OpOut :=
  if is_semantic_id subject then
    let typeArr0 : List JsValue := match ty with | .arr xs _ => xs | t => [t]
    if typeArr0.all (fun t => is_semantic_id (jsToStr t)) then
      let typeArr :=
        if arrIncludes typeArr0 (.str "rdfs:Resource") then typeArr0
        else typeArr0 ++ [.str "rdfs:Resource"]
      let path := get_file_path root subject
      match fs_readParse st path with
      | (evs, .ok v0) =>
          if jsTruthy v0 then
            let w := fs_write st path (jsSet v0 "@type" (.arr typeArr []))
            (w.1, evs ++ w.2, .ok (.bool true))
          else (st, evs, .ok (.bool false))
      | (evs, .error e) => notFoundTo st evs e (.bool false)
    else assertFail "operation_update_type : invalid {SemanticID|Array<SemanticID>} type" st
  else assertFail ("operation_update_type : invalid {SemanticID} subject <" ++ subject ++ ">") st

/-- Generic branch of source function operation_fs_update (the body after
both dispatch tests fail): set json[key] = value and always write back. -/
def operation_fs_update_generic (root : String) (st : FsState) (subject key : String)
    (value : JsValue) : OpOut :=
  if is_semantic_id subject then
  if is_nonempty_key key then
  if is_primitive_value value then
    let path := get_file_path root subject
    match fs_readParse st path with
    | (evs, .ok v0) =>
        if jsTruthy v0 then
          let w := fs_write st path (jsSet v0 key value)
          (w.1, evs ++ w.2, .ok (.bool true))
        else (st, evs, .ok (.bool false))
    | (evs, .error e) => notFoundTo st evs e (.bool false)
  else assertFail "operation_update : invalid {PrimitiveValue|SemanticID} value" st
  else assertFail ("operation_update : {String|SemanticID} key <" ++ key ++ "> is empty") st
  else assertFail ("operation_update : invalid {SemanticID} subject <" ++ subject ++ ">") st

/-- Source function operation_fs_update: the key "@type" dispatches to
UPDATE_type, a semantic-id key with a semantic-id string value dispatches to
UPDATE_predicate, everything else takes the generic branch. (The source
coerces a non-string value for its semantic-id test; outside the documented
PrimitiveValue and SemanticID argument shapes the coercion is not modelled.) -/
def operation_fs_update (root : String) (st : FsState) (subject key : String)
    (value : JsValue) : OpOut :=
  if key == "@type" then operation_fs_update_type root st subject value
  else
    match value with
    | .str v =>
        if is_semantic_id key && is_semantic_id v then
          operation_fs_update_predicate root st subject key v
        else operation_fs_update_generic root st subject key (.str v)
    | v => operation_fs_update_generic root st subject key v

/-- Source function operation_fs_delete_predicate: read the resource; a
non-array json[predicate] resolves true with no write; otherwise remove the
object if present (dropping the whole property when it was the only element)
and write back only when something was removed. -/
def operation_fs_delete_predicate (root : String) (st : FsState)
    (subject predicate object : String) : OpOut :=
  if is_semantic_id subject then
  if is_semantic_id predicate then
  if is_semantic_id object then
    let path := get_file_path root subject
    match fs_readParse st path with
    | (evs, .ok v0) =>
        if jsTruthy v0 then
          match jsGet v0 predicate with
          | .arr elems props =>
              let index := arrIndexOf elems (.str object)
              if 0 ≤ index then
                let json1 :=
                  if 1 < elems.length then
                    jsSet v0 predicate (.arr (elems.eraseIdx index.toNat) props)
                  else jsDelete v0 predicate
                let w := fs_write st path json1
                (w.1, evs ++ w.2, .ok (.bool true))
              else (st, evs, .ok (.bool true))
          | _ => (st, evs, .ok (.bool true))
        else (st, evs, .ok (.bool false))
    | (evs, .error e) => notFoundTo st evs e (.bool false)
  else assertFail ("operation_delete_predicate : invalid {SemanticID} object <" ++ object ++ ">") st
  else assertFail ("operation_delete_predicate : invalid {SemanticID} predicate <" ++ predicate ++ ">") st
  else assertFail ("operation_delete_predicate : invalid {SemanticID} subject <" ++ subject ++ ">") st

/-- Truthiness of an optional string argument (undefined or a string). -/
def jsOptTruthy : Option String → Bool
  | none => false
  | some s => s != ""

/-- String coercion of an optional string argument. -/
def jsOptStr : Option String → String
  | none => "undefined"
  | some s => s

/-- Source function operation_fs_delete: with a truthy predicate or object it
delegates to DELETE_predicate, otherwise it unlinks the whole subject file,
turning ENOENT into false. -/
def operation_fs_delete (root : String) (st : FsState) (subject : String)
    (predicate object : Option String) : OpOut :=
  if jsOptTruthy predicate || jsOptTruthy object then
    operation_fs_delete_predicate root st subject (jsOptStr predicate) (jsOptStr object)
  else if is_semantic_id subject then
    let path := get_file_path root subject
    match fsGet st path with
    | .absent => (st, [.unlinkEv path], .ok (.bool false))
    | .faulty c =>
        if c == Fs_errCodes_not_found then (st, [.unlinkEv path], .ok (.bool false))
        else (st, [.unlinkEv path], .error (.fsErr c))
    | _ => (fsSet st path .absent, [.unlinkEv path], .ok (.bool true))
  else assertFail ("operation_delete : invalid {SemanticID} subject <" ++ subject ++ ">") st

/-- Source function operation_fs_list: the subject resource's json[predicate]
when that is an array, null otherwise. -/
def operation_fs_list (root : String) (st : FsState) (subject predicate : String) : OpOut :=
  if is_semantic_id subject then
  if is_semantic_id predicate then
    match operation_fs_read_subject root st subject with
    | (st1, evs, .ok v) =>
        (st1, evs, .ok (if jsTruthy v then
            match jsGet v predicate with
            | .arr elems props => .arr elems props
            | _ => .null
          else .null))
    | e => e
  else assertFail ("operation_list : invalid {SemanticID} predicate <" ++ predicate ++ ">") st
  else assertFail ("operation_list : invalid {SemanticID} subject <" ++ subject ++ ">") st

/-! ## The factory (module.exports)

The factory validates its configuration with asserts before returning the
adapter object. The configuration is modelled by the shapes the checks
observe: whether the value itself is a non-null object, the shape of the fs
and path properties with respect to the required function, and the root
value. A config module shape where typeof yields "object" but the required
function is missing fails the assert; a null module passes the typeof test
and then throws a TypeError when its function property is read. -/

inductive ConfigModule : Type where
  | missing
  | nullModule
  | objWithoutFunc
  | objWithFunc
  | nonObject

structure AdapterConfig : Type where
  isNonNullObject : Bool
  fsModule : ConfigModule
  pathModule : ConfigModule
  root : JsValue

/-- Evaluation of: typeof m === "object" && config !== null &&
typeof m.fn === "function", inside an assert. -/
def moduleCheck (m : ConfigModule) (msg : String) : Except JsErr Unit :=
  match m with
  | .objWithFunc => .ok ()
  | .nullModule => .error .typeErr
  | .objWithoutFunc => .error (.assertErr ("filesystem_adapter : " ++ msg))
  | .missing => .error (.assertErr ("filesystem_adapter : " ++ msg))
  | .nonObject => .error (.assertErr ("filesystem_adapter : " ++ msg))

/-- Source module.exports: the construction checks in order; on success the
adapter closes over the root folder, which is returned here to stand for the
constructed adapter. -/
def filesystem_adapter_factory (config : AdapterConfig) : Except JsErr String :=
  if config.isNonNullObject = false then
    .error (.assertErr "filesystem_adapter : The config for a persistence adapter must be a nonnull object.")
  else
    match moduleCheck config.fsModule "The config.fs must contain the filesystem module." with
    | .error e => .error e
    | .ok _ =>
        match moduleCheck config.pathModule "The config.path must contain the path module." with
        | .error e => .error e
        | .ok _ =>
            if is_nonempty_key (jsToStr config.root) then .ok (jsToStr config.root)
            else .error (.assertErr "filesystem_adapter : The config.root must contain the path to a persistent folder.")

/-! ## The debounced write-back scheduler

Modelled from the spec: the per-file write-back scheduler (spec section 4.3)
belongs to the store module of this repository that is not among the sources
under src/ (src/ holds only the CRUD adapter, which writes synchronously).
Discrete-time model for one file: at each integer time a mutation may arrive;
notifyMutated applies the mutation to the in-memory dataset and sets or bumps
targetTimeMS to now plus the debounce delay D; the run loop sleeps until the
target and, on waking with the target not advanced, serializes and writes the
current dataset and clears the pending state. Serialization and writing are
instantaneous in this model, so the staleness re-checks of spec steps 3 to 5
collapse into the single wake-time check: a mutation arriving at the wake
tick bumps the target and suppresses the write. -/

structure SchedState : Type where
  dataset : List String
  target : Option Nat
  written : List (Nat × List String)

/-- Modelled from the spec: one tick of the scheduler at time now. A mutation
arriving now is applied and arms or bumps the target (spec steps 1 and 2, the
coalescing step); otherwise a due target fires exactly one write of the
current dataset and clears the pending state (spec steps 3 to 6). -/
def schedTick (D : Nat) (sched : Nat → Option (List String → List String))
    (now : Nat) (s : SchedState) : SchedState :=
  match sched now with
  | some m => { s with dataset := m s.dataset, target := some (now + D) }
  | none =>
      match s.target with
      | some T =>
          if T ≤ now then
            { s with target := none, written := s.written ++ [(now, s.dataset)] }
          else s
      | none => s

/-- Modelled from the spec: the scheduler run up to (excluding) time n,
starting from a quiescent empty store. -/
def schedRun (D : Nat) (sched : Nat → Option (List String → List String)) :
    Nat → SchedState
  | 0 => ⟨[], none, []⟩
  | n + 1 => schedTick D sched n (schedRun D sched n)

/-- The mutation schedule induced by a list of timed mutations. -/
def schedOf (muts : List (Nat × (List String → List String))) :
    Nat → Option (List String → List String) :=
  fun t => (muts.find? (fun m => m.1 == t)).map Prod.snd

/-- The time of the last mutation of a burst starting at time t. -/
def lastTimeFrom (t : Nat) : List (Nat × (List String → List String)) → Nat
  | [] => t
  | p :: rest => lastTimeFrom p.1 rest

/-- The time of the last mutation of a nonempty burst. -/
def lastMutTime : List (Nat × (List String → List String)) → Nat
  | [] => 0
  | m :: rest => lastTimeFrom m.1 rest

/-- The cumulative effect of a burst of mutations on the empty dataset. -/
def applyMuts (muts : List (Nat × (List String → List String))) : List String :=
  muts.foldl (fun ds p => p.2 ds) []

/-! ## The store facade write path

Modelled from the spec: the store facade (spec section 4.4) of the store
module that is not among the sources under src/. For each batch write it
applies only the quads that change dataset membership (duplicate adds are
no-ops, deletes of absent quads are no-ops) and returns the count of quads
actually changed, not the count submitted. The graph component is fixed (one
file), so a quad is a subject, predicate, object triple. -/

abbrev Quad : Type := String × String × String

/-- Modelled from the spec: the add path of the store facade, processing the
submitted quads in order, skipping those already present and counting the
quads actually added. -/
def storeAdd (quads : List Quad) (ds : List Quad) : Nat × List Quad :=
  quads.foldl
    (fun acc q => if q ∈ acc.2 then acc else (acc.1 + 1, acc.2 ++ [q]))
    (0, ds)

/-- Modelled from the spec: the delete path of the store facade, removing
each submitted quad that is present from the de-duplicating dataset and
counting the quads actually removed. -/
def storeDelete (quads : List Quad) (ds : List Quad) : Nat × List Quad :=
  quads.foldl
    (fun acc q =>
      if q ∈ acc.2 then (acc.1 + 1, acc.2.filter (fun x => x != q)) else acc)
    (0, ds)


/-- Shape of a call rejected at the validation boundary: the assert threw,
the filesystem state is unchanged and no filesystem call was made. -/
def rejectedAtBoundary (out : OpOut) (st : FsState) : Prop :=
  out.1 = st ∧ out.2.1 = [] ∧ ∃ msg, out.2.2 = .error (.assertErr msg)

/-- The at-type invariant on a written value: when the value is a JSON
object, its "@type" field is an array containing "rdfs:Resource". -/
def typeFieldOk (v : JsValue) : Bool :=
  match v with
  | .obj fields =>
      match fieldLookup fields "@type" with
      | some (.arr elems _) => arrIncludes elems (.str "rdfs:Resource")
      | _ => false
  | _ => true

/-- The backing file of the given path, when present or readable, satisfies
the at-type invariant. -/
def presGoodAt (st : FsState) (path : String) : Prop :=
  ∀ v, fsGet st path = .present v → typeFieldOk v = true

/-- Every write event of a trace stores a value satisfying the at-type
invariant. -/
def writesOk (evs : List FsEvent) : Prop :=
  ∀ p c, FsEvent.writeEv p c ∈ evs → typeFieldOk c = true

/-! ## Helper lemmas on field lists and normalization -/

theorem fieldLookup_of_all_ne {l : List (String × JsValue)} {k : String}
    (h : l.all (fun kv => kv.1 != k) = true) : fieldLookup l k = none := by
  induction l with
  | nil => rfl
  | cons kv rest ih =>
      simp only [List.all_cons, Bool.and_eq_true, bne_iff_ne, ne_eq] at h
      simp [fieldLookup, beq_iff_eq, h.1, ih h.2]

theorem fieldLookup_append_cons {l r : List (String × JsValue)} {k : String}
    {v : JsValue} (h : l.all (fun kv => kv.1 != k) = true) :
    fieldLookup (l ++ (k, v) :: r) k = some v := by
  induction l with
  | nil => simp [fieldLookup]
  | cons kv rest ih =>
      simp only [List.all_cons, Bool.and_eq_true, bne_iff_ne, ne_eq] at h
      simp [fieldLookup, beq_iff_eq, h.1, ih h.2]

theorem setField_of_all_ne {l : List (String × JsValue)} {k : String} {v : JsValue}
    (h : l.all (fun kv => kv.1 != k) = true) : setField l k v = l ++ [(k, v)] := by
  induction l with
  | nil => rfl
  | cons kv rest ih =>
      simp only [List.all_cons, Bool.and_eq_true, bne_iff_ne, ne_eq] at h
      simp [setField, beq_iff_eq, h.1, ih h.2]

theorem setField_append_of_all_ne {l : List (String × JsValue)} {k : String}
    {x v : JsValue} (h : l.all (fun kv => kv.1 != k) = true) :
    setField (l ++ [(k, x)]) k v = l ++ [(k, v)] := by
  induction l with
  | nil => simp [setField]
  | cons kv rest ih =>
      simp only [List.all_cons, Bool.and_eq_true, bne_iff_ne, ne_eq] at h
      simp [setField, beq_iff_eq, h.1, ih h.2]

theorem eraseField_append_cons {l r : List (String × JsValue)} {k : String}
    {x : JsValue} (h : l.all (fun kv => kv.1 != k) = true) :
    eraseField (l ++ (k, x) :: r) k = l ++ r := by
  induction l with
  | nil => simp [eraseField]
  | cons kv rest ih =>
      simp only [List.all_cons, Bool.and_eq_true, bne_iff_ne, ne_eq] at h
      simp [eraseField, beq_iff_eq, h.1, ih h.2]

theorem fieldLookup_setField_ne {l : List (String × JsValue)} {k k' : String}
    {v : JsValue} (h : k' ≠ k) : fieldLookup (setField l k v) k' = fieldLookup l k' := by
  have hne : ¬ k = k' := fun hh => h hh.symm
  induction l with
  | nil => simp [setField, fieldLookup, beq_iff_eq, hne]
  | cons kv rest ih =>
      by_cases hk : kv.1 = k
      · have hne2 : ¬ kv.1 = k' := by rw [hk]; exact hne
        simp [setField, fieldLookup, beq_iff_eq, hk, hne, hne2]
      · simp [setField, fieldLookup, beq_iff_eq, hk, ih]

theorem fieldLookup_eraseField_ne {l : List (String × JsValue)} {k k' : String}
    (h : k' ≠ k) : fieldLookup (eraseField l k) k' = fieldLookup l k' := by
  have hne : ¬ k = k' := fun hh => h hh.symm
  induction l with
  | nil => rfl
  | cons kv rest ih =>
      by_cases hk : kv.1 = k
      · have hne2 : ¬ kv.1 = k' := by rw [hk]; exact hne
        simp [eraseField, fieldLookup, beq_iff_eq, hk, hne, hne2]
      · simp [eraseField, fieldLookup, beq_iff_eq, hk, ih]

theorem normPairs_append (a b : List (String × JsValue)) :
    normPairs (a ++ b) = normPairs a ++ normPairs b := by
  induction a with
  | nil => simp [normPairs]
  | cons kv rest ih =>
      rcases kv with ⟨k, v⟩
      cases v <;> simp [normPairs, ih]

theorem all_ne_normPairs {l : List (String × JsValue)} {k : String}
    (h : l.all (fun kv => kv.1 != k) = true) :
    (normPairs l).all (fun kv => kv.1 != k) = true := by
  induction l with
  | nil => simp [normPairs]
  | cons kv rest ih =>
      simp only [List.all_cons, Bool.and_eq_true] at h
      rcases kv with ⟨k', v⟩
      cases v <;> simp [normPairs, h.1, ih h.2]

theorem fieldLookup_normPairs {l : List (String × JsValue)} {k : String} {v : JsValue}
    (hl : fieldLookup l k = some v) (hv : isUndefV v = false) :
    fieldLookup (normPairs l) k = some (jsNormalize v) := by
  induction l with
  | nil => simp [fieldLookup] at hl
  | cons kv rest ih =>
      rcases kv with ⟨k', v'⟩
      by_cases hk : k' = k
      · subst hk
        have hv' : v' = v := by simpa [fieldLookup] using hl
        subst hv'
        cases v' <;> simp_all [normPairs, fieldLookup, isUndefV]
      · have hl' : fieldLookup rest k = some v := by
          simpa [fieldLookup, beq_iff_eq, hk] using hl
        cases v' <;> simp [normPairs, fieldLookup, beq_iff_eq, hk, ih hl']

theorem fieldLookup_normPairs_setField {l : List (String × JsValue)} {k : String}
    {v : JsValue} (hv : isUndefV v = false) :
    fieldLookup (normPairs (setField l k v)) k = some (jsNormalize v) := by
  induction l with
  | nil =>
      cases v <;> simp_all [setField, normPairs, fieldLookup, isUndefV]
  | cons kv rest ih =>
      rcases kv with ⟨k', v'⟩
      by_cases hk : k' = k
      · subst hk
        simp only [setField, beq_iff_eq, if_pos rfl]
        cases v <;> simp_all [normPairs, fieldLookup, isUndefV]
      · simp only [setField, beq_iff_eq, if_neg hk]
        cases v' <;> simp [normPairs, fieldLookup, beq_iff_eq, hk, ih]

theorem arrIncludes_normElems_str {l : List JsValue} {s : String}
    (h : arrIncludes l (.str s) = true) :
    arrIncludes (normElems l) (.str s) = true := by
  induction l with
  | nil => simp [arrIncludes] at h
  | cons e rest ih =>
      simp only [arrIncludes, List.any_cons, Bool.or_eq_true] at h ⊢
      rcases h with h | h
      · cases e <;> simp_all [jsStrictEq, normElems, jsNormalize, List.any_cons]
      · cases e <;> simp_all [normElems, List.any_cons, arrIncludes]

theorem nonwhite_of_drop_all {s : String} {n : Nat}
    (hne : s.toList.drop n ≠ [])
    (hall : (s.toList.drop n).all (fun c => !isJsWhitespace c) = true) :
    is_nonempty_key s = true := by
  unfold is_nonempty_key
  rcases List.exists_mem_of_ne_nil _ hne with ⟨c, hc⟩
  simp only [List.any_eq_true]
  exact ⟨c, List.mem_of_mem_drop hc, List.all_eq_true.mp hall c hc⟩

theorem is_semantic_id_nonempty {s : String} (h : is_semantic_id s = true) :
    is_nonempty_key s = true := by
  unfold is_semantic_id at h
  rcases Bool.or_eq_true_iff.mp h with h1 | h2
  · unfold matchHttpUrl at h1
    split at h1
    · simp only [Bool.and_eq_true] at h1
      obtain ⟨ha, hb⟩ := h1
      refine nonwhite_of_drop_all ?_ hb
      simpa using ha
    · split at h1
      · simp only [Bool.and_eq_true] at h1
        obtain ⟨ha, hb⟩ := h1
        refine nonwhite_of_drop_all ?_ hb
        simpa using ha
      · exact absurd h1 (by simp)
  · unfold matchPrefixedId at h2
    split at h2
    · rename_i post heq
      have hmem : ':' ∈ s.toList := by
        refine List.mem_of_mem_drop (n := (s.toList.takeWhile (fun c => c ≠ ':')).length) ?_
        rw [heq]
        exact List.mem_cons_self _ _
      unfold is_nonempty_key
      simp only [List.any_eq_true]
      exact ⟨':', hmem, by decide⟩
    · exact absurd h2 (by simp)

theorem is_semantic_id_at_type : is_semantic_id "@type" = false := by decide

theorem arrIndexOf_of_not_includes {l : List JsValue} {x : JsValue}
    (h : arrIncludes l x = false) : arrIndexOf l x = -1 := by
  induction l with
  | nil => rfl
  | cons e rest ih =>
      simp only [arrIncludes, List.any_cons, Bool.or_eq_false_iff] at h
      simp [arrIndexOf, h.1, ih (by simpa [arrIncludes] using h.2)]

theorem jsToStr_str (s : String) : jsToStr (.str s) = s := by
  simp [jsToStr]

theorem fsGet_fsSet_same (st : FsState) (p : String) (s : FileSlot) :
    fsGet (fsSet st p s) p = s := by
  induction st with
  | nil => simp [fsSet, fsGet]
  | cons e rest ih =>
      by_cases hp : e.1 = p
      · simp [fsSet, fsGet, beq_iff_eq, hp]
      · simp [fsSet, fsGet, beq_iff_eq, hp, ih]

/-! ## Claim theorems -/

/-- C3: for an existing backing file for S parsing to an object whose field P
holds the array elems, an add of (S, P, O) with O already present in the list
changes nothing on disk and triggers no file write, and a delete of (S, P, O)
with O absent from the list changes nothing on disk and triggers no file
write; both resolve to true and perform exactly the one read. -/
theorem claim_C3_noop_no_write
    (root : String) (st : FsState) (S P O : String)
    (fields : List (String × JsValue)) (elems : List JsValue)
    (props : List (String × JsValue))
    (hS : is_semantic_id S = true) (hP : is_semantic_id P = true)
    (hO : is_semantic_id O = true)
    (hfile : fsGet st (get_file_path root S) = .present (.obj fields))
    (hpred : fieldLookup fields P = some (.arr elems props)) :
    (arrIncludes elems (.str O) = true →
      operation_fs_update_predicate root st S P O
        = (st, [.readEv (get_file_path root S)], .ok (.bool true)))
    ∧ (arrIncludes elems (.str O) = false →
      operation_fs_delete_predicate root st S P O
        = (st, [.readEv (get_file_path root S)], .ok (.bool true))) := by
  constructor
  · intro hmem
    simp [operation_fs_update_predicate, hS, hP, hO, fs_readParse, hfile,
      jsTruthy, jsGet, hpred, hmem]
  · intro hmem
    simp [operation_fs_delete_predicate, hS, hP, hO, fs_readParse, hfile,
      jsTruthy, jsGet, hpred, arrIndexOf_of_not_includes hmem]

/-- Witness for C3 at a concrete store: the file of subject a:s holds
a:p mapped to the one-element list with a:o. -/
theorem claim_C3_noop_no_write_witness :
    operation_fs_update_predicate "r"
        [(get_file_path "r" "a:s", .present (.obj [("a:p", .arr [.str "a:o"] [])]))]
        "a:s" "a:p" "a:o"
      = ([(get_file_path "r" "a:s", .present (.obj [("a:p", .arr [.str "a:o"] [])]))],
         [.readEv (get_file_path "r" "a:s")], .ok (.bool true))
    ∧ operation_fs_delete_predicate "r"
        [(get_file_path "r" "a:s", .present (.obj [("a:p", .arr [.str "a:o"] [])]))]
        "a:s" "a:p" "a:x"
      = ([(get_file_path "r" "a:s", .present (.obj [("a:p", .arr [.str "a:o"] [])]))],
         [.readEv (get_file_path "r" "a:s")], .ok (.bool true)) := by
  constructor
  · exact (claim_C3_noop_no_write "r" _ "a:s" "a:p" "a:o" _ _ _
      (by decide) (by decide) (by decide) (by rfl) (by rfl)).1 (by rfl)
  · exact (claim_C3_noop_no_write "r" _ "a:s" "a:p" "a:x" _ _ _
      (by decide) (by decide) (by decide) (by rfl) (by rfl)).2 (by rfl)

/-- C9: CREATE with a valid subject resolves to false exactly when the target
file already exists, leaving the filesystem state unchanged (the exclusive wx
flag); with no existing file it writes the initial resource object and
resolves to true. -/
theorem claim_C9_create_exclusive
    (root : String) (st : FsState) (S : String) (v : JsValue)
    (hS : is_semantic_id S = true) :
    (fsGet st (get_file_path root S) = .present v →
      operation_fs_create root st S = (st, [], .ok (.bool false)))
    ∧ (fsGet st (get_file_path root S) = .absent →
      operation_fs_create root st S
        = (fsSet st (get_file_path root S) (.present (initResource S)),
           [.writeEv (get_file_path root S) (initResource S)], .ok (.bool true))) := by
  have hnorm : jsNormalize (initResource S) = initResource S := by
    simp [initResource, jsNormalize, normPairs, normElems]
  constructor
  · intro hfile
    simp [operation_fs_create, hS, hfile]
  · intro hfile
    simp [operation_fs_create, hS, hfile, hnorm]

/-- Witness for C9: creating a fresh subject writes its initial resource, and
creating it again over the produced file resolves false and changes nothing. -/
theorem claim_C9_create_exclusive_witness :
    operation_fs_create "r" [] "a:s"
      = (fsSet [] (get_file_path "r" "a:s") (.present (initResource "a:s")),
         [.writeEv (get_file_path "r" "a:s") (initResource "a:s")], .ok (.bool true))
    ∧ operation_fs_create "r" [(get_file_path "r" "a:s", .present (initResource "a:s"))] "a:s"
      = ([(get_file_path "r" "a:s", .present (initResource "a:s"))], [], .ok (.bool false)) := by
  constructor
  · exact (claim_C9_create_exclusive "r" [] "a:s" .null (by decide)).2 (by rfl)
  · exact (claim_C9_create_exclusive "r"
      [(get_file_path "r" "a:s", .present (initResource "a:s"))] "a:s"
      (initResource "a:s") (by decide)).1 (by rfl)

/-- C6: READ (no key) and LIST on a subject with no backing file resolve to
null rather than raising: the ENOENT error is caught and converted; a read
failing with any other system error code propagates to the caller. -/
theorem claim_C6_read_leniency
    (root : String) (st : FsState) (S P c : String)
    (hS : is_semantic_id S = true) (hP : is_semantic_id P = true) :
    (fsGet st (get_file_path root S) = .absent →
      operation_fs_read root st S .undef
          = (st, [.readEv (get_file_path root S)], .ok .null)
        ∧ operation_fs_list root st S P
          = (st, [.readEv (get_file_path root S)], .ok .null))
    ∧ (fsGet st (get_file_path root S) = .faulty c →
        (c == Fs_errCodes_not_found) = false →
      operation_fs_read root st S .undef
          = (st, [.readEv (get_file_path root S)], .error (.fsErr c))
        ∧ operation_fs_list root st S P
          = (st, [.readEv (get_file_path root S)], .error (.fsErr c))) := by
  constructor
  · intro hfile
    constructor
    · simp [operation_fs_read, jsTruthy, operation_fs_read_subject, hS,
        fs_readParse, hfile, notFoundTo]
    · simp [operation_fs_list, hS, hP, operation_fs_read_subject,
        fs_readParse, hfile, notFoundTo, jsTruthy]
  · intro hfile hc
    constructor
    · simp [operation_fs_read, jsTruthy, operation_fs_read_subject, hS,
        fs_readParse, hfile, notFoundTo, hc]
    · simp [operation_fs_list, hS, hP, operation_fs_read_subject,
        fs_readParse, hfile, notFoundTo, hc]

/-- Witness for C6: reading and listing a never-written subject on the empty
filesystem yields null; with an injected EACCES fault the error propagates. -/
theorem claim_C6_read_leniency_witness :
    (operation_fs_read "r" [] "a:s" .undef
        = ([], [.readEv (get_file_path "r" "a:s")], .ok .null)
      ∧ operation_fs_list "r" [] "a:s" "a:p"
        = ([], [.readEv (get_file_path "r" "a:s")], .ok .null))
    ∧ (operation_fs_read "r" [(get_file_path "r" "a:s", .faulty "EACCES")] "a:s" .undef
        = ([(get_file_path "r" "a:s", .faulty "EACCES")],
           [.readEv (get_file_path "r" "a:s")], .error (.fsErr "EACCES"))) := by
  constructor
  · exact (claim_C6_read_leniency "r" [] "a:s" "a:p" "x" (by decide) (by decide)).1 (by rfl)
  · exact ((claim_C6_read_leniency "r" [(get_file_path "r" "a:s", .faulty "EACCES")]
      "a:s" "a:p" "EACCES" (by decide) (by decide)).2 (by rfl) (by decide)).1

/-- C7: every invalid construction configuration of the enumerated kinds (not
a non-null object, missing or malformed fs module, missing or malformed path
module, or an empty or all-whitespace root string) makes the factory throw,
so no adapter object is produced. -/
theorem claim_C7_config_errors (cfg : AdapterConfig)
    (h : cfg.isNonNullObject = false ∨ cfg.fsModule ≠ .objWithFunc
        ∨ cfg.pathModule ≠ .objWithFunc
        ∨ ∃ s, cfg.root = .str s ∧ is_nonempty_key s = false) :
    ∃ e, filesystem_adapter_factory cfg = .error e := by
  rcases cfg with ⟨b, fm, pm, rt⟩
  cases b
  · exact ⟨_, rfl⟩
  · cases fm
    case missing => exact ⟨_, rfl⟩
    case nullModule => exact ⟨_, rfl⟩
    case objWithoutFunc => exact ⟨_, rfl⟩
    case nonObject => exact ⟨_, rfl⟩
    case objWithFunc =>
      cases pm
      case missing => exact ⟨_, rfl⟩
      case nullModule => exact ⟨_, rfl⟩
      case objWithoutFunc => exact ⟨_, rfl⟩
      case nonObject => exact ⟨_, rfl⟩
      case objWithFunc =>
        rcases h with h | h | h | ⟨s, hs, hroot⟩
        · simp at h
        · simp at h
        · simp at h
        · subst hs
          refine ⟨.assertErr "filesystem_adapter : The config.root must contain the path to a persistent folder.", ?_⟩
          simp [filesystem_adapter_factory, moduleCheck, jsToStr_str, hroot]

/-- Witness for C7 at concrete invalid configurations: a non-object config, a
config whose fs module misses the readFile function, and a config with the
empty root string. -/
theorem claim_C7_config_errors_witness :
    (∃ e, filesystem_adapter_factory ⟨false, .objWithFunc, .objWithFunc, .str "r"⟩ = .error e)
    ∧ (∃ e, filesystem_adapter_factory ⟨true, .objWithoutFunc, .objWithFunc, .str "r"⟩ = .error e)
    ∧ (∃ e, filesystem_adapter_factory ⟨true, .objWithFunc, .objWithFunc, .str ""⟩ = .error e) := by
  refine ⟨?_, ?_, ?_⟩
  · exact claim_C7_config_errors _ (Or.inl rfl)
  · exact claim_C7_config_errors _ (Or.inr (Or.inl (by simp)))
  · exact claim_C7_config_errors _ (Or.inr (Or.inr (Or.inr ⟨"", rfl, by decide⟩)))

/-- C4: starting from a resource for subject S with no entry under predicate
P, a successful add of (S, P, O) makes LIST(S, P) yield exactly the one
object O, and a subsequent successful delete of (S, P, O) makes LIST(S, P)
yield no objects (null). -/
theorem claim_C4_roundtrip
    (root : String) (st : FsState) (S P O : String)
    (fields : List (String × JsValue))
    (hS : is_semantic_id S = true) (hP : is_semantic_id P = true)
    (hO : is_semantic_id O = true)
    (hfile : fsGet st (get_file_path root S) = .present (.obj fields))
    (hne : fields.all (fun kv => kv.1 != P) = true) :
    (operation_fs_update_predicate root st S P O).2.2 = .ok (.bool true)
    ∧ (operation_fs_list root (operation_fs_update_predicate root st S P O).1 S P).2.2
        = .ok (.arr [.str O] [])
    ∧ (operation_fs_delete_predicate root
        (operation_fs_update_predicate root st S P O).1 S P O).2.2 = .ok (.bool true)
    ∧ (operation_fs_list root
        (operation_fs_delete_predicate root
          (operation_fs_update_predicate root st S P O).1 S P O).1 S P).2.2
        = .ok .null := by
  have hlk0 : fieldLookup fields P = none := fieldLookup_of_all_ne hne
  have hnp : (normPairs fields).all (fun kv => kv.1 != P) = true := all_ne_normPairs hne
  have hV1 : jsNormalize (.obj (fields ++ [(P, .arr [.str O] [])]))
      = .obj (normPairs fields ++ [(P, .arr [.str O] [])]) := by
    simp [jsNormalize, normPairs_append, normPairs, normElems]
  have hu : operation_fs_update_predicate root st S P O
      = (fsSet st (get_file_path root S)
           (.present (.obj (normPairs fields ++ [(P, .arr [.str O] [])]))),
         [.readEv (get_file_path root S),
          .writeEv (get_file_path root S)
            (.obj (normPairs fields ++ [(P, .arr [.str O] [])]))],
         .ok (.bool true)) := by
    simp [operation_fs_update_predicate, hS, hP, hO, fs_readParse, hfile, jsTruthy,
      jsGet, hlk0, jsSet, setField_of_all_ne hne, fieldLookup_append_cons hne,
      arrIncludes, setField_append_of_all_ne hne, fs_write, hV1]
  have hget1 : fsGet (fsSet st (get_file_path root S)
        (.present (.obj (normPairs fields ++ [(P, .arr [.str O] [])]))))
        (get_file_path root S)
      = .present (.obj (normPairs fields ++ [(P, .arr [.str O] [])])) :=
    fsGet_fsSet_same _ _ _
  have hlist1 : (operation_fs_list root
        (fsSet st (get_file_path root S)
          (.present (.obj (normPairs fields ++ [(P, .arr [.str O] [])])))) S P).2.2
      = .ok (.arr [.str O] []) := by
    simp [operation_fs_list, hS, hP, operation_fs_read_subject, fs_readParse,
      hget1, jsTruthy, jsGet, fieldLookup_append_cons hnp]
  have hV2 : jsNormalize (.obj (normPairs fields)) = .obj (normPairs (normPairs fields)) := by
    simp [jsNormalize]
  have hd : operation_fs_delete_predicate root
        (fsSet st (get_file_path root S)
          (.present (.obj (normPairs fields ++ [(P, .arr [.str O] [])])))) S P O
      = (fsSet (fsSet st (get_file_path root S)
            (.present (.obj (normPairs fields ++ [(P, .arr [.str O] [])]))))
           (get_file_path root S) (.present (.obj (normPairs (normPairs fields)))),
         [.readEv (get_file_path root S),
          .writeEv (get_file_path root S) (.obj (normPairs (normPairs fields)))],
         .ok (.bool true)) := by
    have herase : eraseField (normPairs fields ++ [(P, .arr [.str O] [])]) P
        = normPairs fields := by
      have := eraseField_append_cons (r := ([] : List (String × JsValue)))
        (x := JsValue.arr [.str O] []) hnp
      simpa using this
    simp [operation_fs_delete_predicate, hS, hP, hO, fs_readParse, hget1, jsTruthy,
      jsGet, fieldLookup_append_cons hnp, arrIndexOf, jsStrictEq, jsDelete,
      herase, fs_write, hV2]
  have hget2 : fsGet (fsSet (fsSet st (get_file_path root S)
          (.present (.obj (normPairs fields ++ [(P, .arr [.str O] [])]))))
        (get_file_path root S) (.present (.obj (normPairs (normPairs fields)))))
        (get_file_path root S)
      = .present (.obj (normPairs (normPairs fields))) := fsGet_fsSet_same _ _ _
  have hlist2 : (operation_fs_list root
        (fsSet (fsSet st (get_file_path root S)
            (.present (.obj (normPairs fields ++ [(P, .arr [.str O] [])]))))
          (get_file_path root S) (.present (.obj (normPairs (normPairs fields))))) S P).2.2
      = .ok .null := by
    simp [operation_fs_list, hS, hP, operation_fs_read_subject, fs_readParse,
      hget2, jsTruthy, jsGet, fieldLookup_of_all_ne (all_ne_normPairs hnp)]
  rw [hu]
  refine ⟨rfl, ?_, ?_, ?_⟩
  · exact hlist1
  · rw [hd]
  · rw [hd]
    exact hlist2

/-- Witness for C4 at a concrete store: the resource of a:s initially holds
only its id field. -/
theorem claim_C4_roundtrip_witness :
    (operation_fs_update_predicate "r"
        [(get_file_path "r" "a:s", .present (.obj [("@id", .str "a:s")]))]
        "a:s" "a:p" "a:o").2.2 = .ok (.bool true)
    ∧ (operation_fs_list "r"
        (operation_fs_update_predicate "r"
          [(get_file_path "r" "a:s", .present (.obj [("@id", .str "a:s")]))]
          "a:s" "a:p" "a:o").1 "a:s" "a:p").2.2 = .ok (.arr [.str "a:o"] [])
    ∧ (operation_fs_delete_predicate "r"
        (operation_fs_update_predicate "r"
          [(get_file_path "r" "a:s", .present (.obj [("@id", .str "a:s")]))]
          "a:s" "a:p" "a:o").1 "a:s" "a:p" "a:o").2.2 = .ok (.bool true)
    ∧ (operation_fs_list "r"
        (operation_fs_delete_predicate "r"
          (operation_fs_update_predicate "r"
            [(get_file_path "r" "a:s", .present (.obj [("@id", .str "a:s")]))]
            "a:s" "a:p" "a:o").1 "a:s" "a:p" "a:o").1 "a:s" "a:p").2.2 = .ok .null :=
  claim_C4_roundtrip "r" _ "a:s" "a:p" "a:o" [("@id", .str "a:s")]
    (by decide) (by decide) (by decide) (by rfl) (by decide)

/-- C10, as amended: for a subject whose backing file exists and parses to a
JSON object, READ with an array of nonempty string keys returns the array of
the stored values, with null for each absent key; READ with a single
nonempty string key other than "@type" returns that key's stored value or
null when absent; READ with the single key "@type" returns the stored
"@type" value, or undefined (not null) when the field is absent; and for a
subject with no backing file READ returns null. -/
theorem claim_C10_read_keys
    (root : String) (st : FsState) (S : String)
    (hS : is_semantic_id S = true) :
    (∀ fields, fsGet st (get_file_path root S) = .present (.obj fields) →
      (∀ (ks : List String) (props : List (String × JsValue)),
          ks.all is_nonempty_key = true →
          operation_fs_read root st S (.arr (ks.map .str) props)
            = (st, [.readEv (get_file_path root S)],
               .ok (.arr (ks.map (fun k => (fieldLookup fields k).getD .null)) [])))
        ∧ (∀ k : String, is_nonempty_key k = true → k ≠ "@type" →
          operation_fs_read root st S (.str k)
            = (st, [.readEv (get_file_path root S)],
               .ok ((fieldLookup fields k).getD .null)))
        ∧ operation_fs_read root st S (.str "@type")
            = (st, [.readEv (get_file_path root S)],
               .ok ((fieldLookup fields "@type").getD .undef)))
    ∧ (fsGet st (get_file_path root S) = .absent →
        ∀ k : String, is_nonempty_key k = true →
          operation_fs_read root st S (.str k)
            = (st, [.readEv (get_file_path root S)], .ok .null)) := by
  constructor
  · intro fields hfile
    refine ⟨?_, ?_, ?_⟩
    · intro ks props hks
      have hall : (ks.map JsValue.str).all (fun k => is_nonempty_key (jsToStr k)) = true := by
        simpa [List.all_map, Function.comp, jsToStr] using hks
      simp [operation_fs_read, jsTruthy, hS, hall, operation_fs_read_subject,
        fs_readParse, hfile, jsEntries, List.map_map, Function.comp_def]
    · intro k hk hkt
      have hk0 : k ≠ "" := by
        intro h
        rw [h] at hk
        simp [is_nonempty_key] at hk
      have hkb : (k == "@type") = false := by simpa using hkt
      simp [operation_fs_read, jsTruthy, hk0, hkb, hS, jsToStr, hk,
        operation_fs_read_subject, fs_readParse, hfile, jsEntries]
    · simp [operation_fs_read, jsTruthy, operation_fs_read_type, hS,
        operation_fs_read_subject, fs_readParse, hfile, jsGet]
  · intro hfile k hk
    have hk0 : k ≠ "" := by
      intro h
      rw [h] at hk
      simp [is_nonempty_key] at hk
    by_cases hkt : k = "@type"
    · subst hkt
      simp [operation_fs_read, jsTruthy, operation_fs_read_type, hS,
        operation_fs_read_subject, fs_readParse, hfile, notFoundTo]
    · have hkb : (k == "@type") = false := by simpa using hkt
      simp [operation_fs_read, jsTruthy, hk0, hkb, hS, jsToStr, hk,
        operation_fs_read_subject, fs_readParse, hfile, notFoundTo]

/-- Witness for C10 (amended) at a concrete resource holding one predicate
entry next to its id and type fields. -/
theorem claim_C10_read_keys_witness :
    operation_fs_read "r"
        [(get_file_path "r" "a:s",
          .present (.obj [("@id", .str "a:s"), ("a:p", .arr [.str "a:o"] [])]))]
        "a:s" (.arr [.str "a:p", .str "a:q"] [])
      = ([(get_file_path "r" "a:s",
           .present (.obj [("@id", .str "a:s"), ("a:p", .arr [.str "a:o"] [])]))],
         [.readEv (get_file_path "r" "a:s")],
         .ok (.arr [.arr [.str "a:o"] [], .null] []))
    ∧ operation_fs_read "r" [] "a:s" (.str "a:p")
      = ([], [.readEv (get_file_path "r" "a:s")], .ok .null) := by
  constructor
  · have h := (((claim_C10_read_keys "r"
      [(get_file_path "r" "a:s",
        .present (.obj [("@id", .str "a:s"), ("a:p", .arr [.str "a:o"] [])]))]
      "a:s" (by decide)).1 [("@id", .str "a:s"), ("a:p", .arr [.str "a:o"] [])]
      (by rfl)).1 ["a:p", "a:q"] [] (by decide))
    simpa [fieldLookup] using h
  · exact (claim_C10_read_keys "r" [] "a:s" (by decide)).2 (by rfl) "a:p" (by decide)

/-- C10 counterexample: for the subject a:s whose backing file parses to an
object without a "@type" field, READ with the single nonempty key "@type"
returns undefined rather than null, so the claimed value-or-null contract
fails at the key "@type". -/
theorem claim_C10_counterexample :
    operation_fs_read "r"
        [(get_file_path "r" "a:s", .present (.obj [("@id", .str "a:s")]))]
        "a:s" (.str "@type")
      = ([(get_file_path "r" "a:s", .present (.obj [("@id", .str "a:s")]))],
         [.readEv (get_file_path "r" "a:s")], .ok .undef)
    ∧ JsValue.undef ≠ JsValue.null :=
  ⟨rfl, fun h => JsValue.noConfusion h⟩

/-- C5: every operation rejects an argument failing shape validation with a
synchronous assert error at the boundary, with no filesystem call made and
no state change; in particular a batch type update applies nothing when any
element of the type array fails validation. -/
theorem claim_C5_boundary_validation
    (root : String) (st : FsState) (S P O key : String) (value ty : JsValue)
    (ks tys : List String) (props : List (String × JsValue)) :
    (is_semantic_id S = false →
      rejectedAtBoundary (operation_fs_update_predicate root st S P O) st)
    ∧ (is_semantic_id S = true → is_semantic_id P = false →
      rejectedAtBoundary (operation_fs_update_predicate root st S P O) st)
    ∧ (is_semantic_id S = true → is_semantic_id P = true → is_semantic_id O = false →
      rejectedAtBoundary (operation_fs_update_predicate root st S P O) st)
    ∧ (is_semantic_id S = false →
      rejectedAtBoundary (operation_fs_delete_predicate root st S P O) st)
    ∧ (is_semantic_id S = true → is_semantic_id P = true → is_semantic_id O = false →
      rejectedAtBoundary (operation_fs_delete_predicate root st S P O) st)
    ∧ (is_semantic_id S = false →
      rejectedAtBoundary (operation_fs_update_type root st S ty) st)
    ∧ (is_semantic_id S = true → tys.all is_semantic_id = false →
      rejectedAtBoundary (operation_fs_update_type root st S (.arr (tys.map .str) props)) st)
    ∧ (is_semantic_id S = true → is_nonempty_key key = false →
      rejectedAtBoundary (operation_fs_update root st S key value) st)
    ∧ (is_semantic_id S = true → key ≠ "@type" → is_nonempty_key key = true →
        is_semantic_id key = false → is_primitive_value value = false →
      rejectedAtBoundary (operation_fs_update root st S key value) st)
    ∧ (is_semantic_id S = false → key ≠ "@type" → is_semantic_id key = false →
      rejectedAtBoundary (operation_fs_update root st S key value) st)
    ∧ (is_semantic_id S = true → ks.all is_nonempty_key = false →
      rejectedAtBoundary (operation_fs_read root st S (.arr (ks.map .str) props)) st)
    ∧ (is_semantic_id S = false →
      rejectedAtBoundary (operation_fs_list root st S P) st)
    ∧ (is_semantic_id S = true → is_semantic_id P = false →
      rejectedAtBoundary (operation_fs_list root st S P) st)
    ∧ (is_semantic_id S = false →
      rejectedAtBoundary (operation_fs_create root st S) st)
    ∧ (is_semantic_id S = false →
      rejectedAtBoundary (operation_fs_exist root st S) st)
    ∧ (is_semantic_id S = false →
      rejectedAtBoundary (operation_fs_delete root st S none none) st)
    ∧ (is_semantic_id S = false →
      rejectedAtBoundary (operation_fs_read_subject root st S) st) := by
  refine ⟨?_, ?_, ?_, ?_, ?_, ?_, ?_, ?_, ?_, ?_, ?_, ?_, ?_, ?_, ?_, ?_, ?_⟩
  · intro h1
    simp [rejectedAtBoundary, operation_fs_update_predicate, h1, assertFail]
  · intro h1 h2
    simp [rejectedAtBoundary, operation_fs_update_predicate, h1, h2, assertFail]
  · intro h1 h2 h3
    simp [rejectedAtBoundary, operation_fs_update_predicate, h1, h2, h3, assertFail]
  · intro h1
    simp [rejectedAtBoundary, operation_fs_delete_predicate, h1, assertFail]
  · intro h1 h2 h3
    simp [rejectedAtBoundary, operation_fs_delete_predicate, h1, h2, h3, assertFail]
  · intro h1
    simp [rejectedAtBoundary, operation_fs_update_type, h1, assertFail]
  · intro h1 h2
    have hall : ((tys.map JsValue.str).all (fun t => is_semantic_id (jsToStr t))) = false := by
      simpa [List.all_map, Function.comp_def, jsToStr] using h2
    simp [rejectedAtBoundary, operation_fs_update_type, h1, hall, assertFail]
  · intro h1 h2
    have hkt : (key == "@type") = false := by
      rcases eq_or_ne key "@type" with h | h
      · subst h
        exact absurd h2 (by decide)
      · simpa using h
    have hks : is_semantic_id key = false := by
      cases hx : is_semantic_id key
      · rfl
      · exact absurd (is_semantic_id_nonempty hx) (by simp [h2])
    cases value <;>
      simp [rejectedAtBoundary, operation_fs_update, hkt, hks,
        operation_fs_update_generic, h1, h2, assertFail]
  · intro h1 hkt h3 h4 h5
    have hktb : (key == "@type") = false := by simpa using hkt
    cases value with
    | null => exact absurd h5 (by simp [is_primitive_value])
    | bool b => exact absurd h5 (by simp [is_primitive_value])
    | num n => exact absurd h5 (by simp [is_primitive_value])
    | str s =>
        simp only [operation_fs_update, hktb, Bool.false_eq_true, if_false, h4,
          Bool.false_and]
        simp only [rejectedAtBoundary, operation_fs_update_generic, h1, h3, h5,
          assertFail, if_true, if_false]
        simp
    | undef =>
        simp only [rejectedAtBoundary, operation_fs_update, hktb, Bool.false_eq_true,
          if_false, operation_fs_update_generic, h1, h3, h5, assertFail, if_true]
        simp
    | arr elems props2 =>
        simp only [rejectedAtBoundary, operation_fs_update, hktb, Bool.false_eq_true,
          if_false, operation_fs_update_generic, h1, h3, h5, assertFail, if_true]
        simp
    | obj fields =>
        simp only [rejectedAtBoundary, operation_fs_update, hktb, Bool.false_eq_true,
          if_false, operation_fs_update_generic, h1, h3, h5, assertFail, if_true]
        simp
  · intro h1 hkt h4
    have hktb : (key == "@type") = false := by simpa using hkt
    cases value <;>
      simp [rejectedAtBoundary, operation_fs_update, hktb, h4,
        operation_fs_update_generic, h1, assertFail]
  · intro h1 h2
    have hall : ((ks.map JsValue.str).all (fun k => is_nonempty_key (jsToStr k))) = false := by
      simpa [List.all_map, Function.comp_def, jsToStr] using h2
    simp [rejectedAtBoundary, operation_fs_read, jsTruthy, h1, hall, assertFail]
  · intro h1
    simp [rejectedAtBoundary, operation_fs_list, h1, assertFail]
  · intro h1 h2
    simp [rejectedAtBoundary, operation_fs_list, h1, h2, assertFail]
  · intro h1
    simp [rejectedAtBoundary, operation_fs_create, h1, assertFail]
  · intro h1
    simp [rejectedAtBoundary, operation_fs_exist, h1, assertFail]
  · intro h1
    simp [rejectedAtBoundary, operation_fs_delete, jsOptTruthy, h1, assertFail]
  · intro h1
    simp [rejectedAtBoundary, operation_fs_read_subject, h1, assertFail]

/-- Witness for C5 at concrete invalid arguments: a non-semantic object on
an add, a type batch with one invalid element, an empty update key, and a
whitespace entry in a READ key array; each against a nonempty filesystem
whose state is untouched. -/
theorem claim_C5_boundary_validation_witness :
    rejectedAtBoundary
      (operation_fs_update_predicate "r"
        [(get_file_path "r" "a:s", .present (initResource "a:s"))] "a:s" "a:p" "not an id")
      [(get_file_path "r" "a:s", .present (initResource "a:s"))]
    ∧ rejectedAtBoundary
      (operation_fs_update_type "r"
        [(get_file_path "r" "a:s", .present (initResource "a:s"))] "a:s"
        (.arr [.str "a:t", .str "bad id"] []))
      [(get_file_path "r" "a:s", .present (initResource "a:s"))]
    ∧ rejectedAtBoundary
      (operation_fs_update "r"
        [(get_file_path "r" "a:s", .present (initResource "a:s"))] "a:s" " " (.str "v"))
      [(get_file_path "r" "a:s", .present (initResource "a:s"))]
    ∧ rejectedAtBoundary
      (operation_fs_read "r"
        [(get_file_path "r" "a:s", .present (initResource "a:s"))] "a:s"
        (.arr [.str "@id", .str " "] []))
      [(get_file_path "r" "a:s", .present (initResource "a:s"))] := by
  refine ⟨?_, ?_, ?_, ?_⟩
  · exact (claim_C5_boundary_validation "r" _ "a:s" "a:p" "not an id" "k" .null .null
      [] [] []).2.2.1 (by decide) (by decide) (by decide)
  · exact (claim_C5_boundary_validation "r" _ "a:s" "a:p" "a:o" "k" .null .null
      [] ["a:t", "bad id"] []).2.2.2.2.2.2.1 (by decide) (by decide)
  · exact (claim_C5_boundary_validation "r" _ "a:s" "a:p" "a:o" " " (.str "v") .null
      [] [] []).2.2.2.2.2.2.2.1 (by decide) (by decide)
  · exact (claim_C5_boundary_validation "r" _ "a:s" "a:p" "a:o" "k" .null .null
      ["@id", " "] [] []).2.2.2.2.2.2.2.2.2.2.1 (by decide) (by decide)

theorem writesOk_nil : writesOk [] := by
  intro p c h
  simp at h

theorem writesOk_read (p : String) : writesOk [.readEv p] := by
  intro q c h
  simp at h

theorem writesOk_stat (p : String) : writesOk [.statEv p] := by
  intro q c h
  simp at h

theorem writesOk_unlink (p : String) : writesOk [.unlinkEv p] := by
  intro q c h
  simp at h

theorem writesOk_write {q : String} {c : JsValue} (h : typeFieldOk c = true) :
    writesOk [.writeEv q c] := by
  intro r d hm
  simp only [List.mem_singleton] at hm
  cases hm
  exact h

theorem writesOk_read_write {p q : String} {c : JsValue} (h : typeFieldOk c = true) :
    writesOk [.readEv p, .writeEv q c] := by
  intro r d hm
  simp only [List.mem_cons, List.mem_singleton, List.not_mem_nil, or_false] at hm
  rcases hm with hm | hm
  · exact absurd hm (by simp)
  · cases hm
    exact h

theorem arrIncludes_resource_ensure (tys : List JsValue) :
    arrIncludes
      (if arrIncludes tys (.str "rdfs:Resource") then tys
       else tys ++ [.str "rdfs:Resource"]) (.str "rdfs:Resource") = true := by
  by_cases h : arrIncludes tys (.str "rdfs:Resource")
  · rw [if_pos h]
    exact h
  · rw [if_neg h]
    unfold arrIncludes
    rw [List.any_append]
    simp [jsStrictEq]

theorem typeOk_jsSet_at_type {json : JsValue} {tys : List JsValue}
    (h : arrIncludes tys (.str "rdfs:Resource") = true) :
    typeFieldOk (jsNormalize (jsSet json "@type" (.arr tys []))) = true := by
  cases json with
  | obj fields =>
      have hlk := fieldLookup_normPairs_setField (l := fields) (k := "@type")
        (v := JsValue.arr tys []) (by simp [isUndefV])
      simp [jsSet, jsNormalize, typeFieldOk, hlk, arrIncludes_normElems_str h]
  | arr elems props => simp [jsSet, jsNormalize, typeFieldOk]
  | undef => simp [jsSet, jsNormalize, typeFieldOk]
  | null => simp [jsSet, jsNormalize, typeFieldOk]
  | bool b => simp [jsSet, jsNormalize, typeFieldOk]
  | num n => simp [jsSet, jsNormalize, typeFieldOk]
  | str s => simp [jsSet, jsNormalize, typeFieldOk]

theorem typeOk_obtain {fields : List (String × JsValue)}
    (h : typeFieldOk (.obj fields) = true) :
    ∃ elems props, fieldLookup fields "@type" = some (.arr elems props)
      ∧ arrIncludes elems (.str "rdfs:Resource") = true := by
  simp only [typeFieldOk] at h
  rcases hlk : fieldLookup fields "@type" with _ | v
  · rw [hlk] at h
    simp at h
  · rw [hlk] at h
    cases v with
    | arr elems props => exact ⟨elems, props, rfl, h⟩
    | undef => simp at h
    | null => simp at h
    | bool b => simp at h
    | num n => simp at h
    | str s => simp at h
    | obj f2 => simp at h

theorem typeOk_jsSet_ne {json : JsValue} {k : String} {v : JsValue}
    (hk : k ≠ "@type") (h : typeFieldOk json = true) :
    typeFieldOk (jsSet json k v) = true := by
  cases json with
  | obj fields =>
      rcases typeOk_obtain h with ⟨elems, props, hlk, hinc⟩
      have := fieldLookup_setField_ne (l := fields) (v := v)
        (fun hh => hk hh.symm)
      simp [jsSet, typeFieldOk, this, hlk, hinc]
  | arr elems props => simp [jsSet, typeFieldOk]
  | undef => simp [jsSet, typeFieldOk]
  | null => simp [jsSet, typeFieldOk]
  | bool b => simp [jsSet, typeFieldOk]
  | num n => simp [jsSet, typeFieldOk]
  | str s => simp [jsSet, typeFieldOk]

theorem typeOk_jsNormalize {json : JsValue} (h : typeFieldOk json = true) :
    typeFieldOk (jsNormalize json) = true := by
  cases json with
  | obj fields =>
      rcases typeOk_obtain h with ⟨elems, props, hlk, hinc⟩
      have hlk2 := fieldLookup_normPairs (l := fields) hlk (by simp [isUndefV])
      simp only [jsNormalize, typeFieldOk]
      rw [hlk2]
      simp [jsNormalize, arrIncludes_normElems_str hinc]
  | arr elems props => simp [jsNormalize, typeFieldOk]
  | undef => simp [jsNormalize, typeFieldOk]
  | null => simp [jsNormalize, typeFieldOk]
  | bool b => simp [jsNormalize, typeFieldOk]
  | num n => simp [jsNormalize, typeFieldOk]
  | str s => simp [jsNormalize, typeFieldOk]

theorem typeOk_jsDelete_ne {json : JsValue} {k : String}
    (hk : k ≠ "@type") (h : typeFieldOk json = true) :
    typeFieldOk (jsDelete json k) = true := by
  cases json with
  | obj fields =>
      rcases typeOk_obtain h with ⟨elems, props, hlk, hinc⟩
      have := fieldLookup_eraseField_ne (l := fields) (k := k)
        (fun hh => hk hh.symm)
      simp [jsDelete, typeFieldOk, this, hlk, hinc]
  | arr elems props => simp [jsDelete, typeFieldOk]
  | undef => simp [jsDelete, typeFieldOk]
  | null => simp [jsDelete, typeFieldOk]
  | bool b => simp [jsDelete, typeFieldOk]
  | num n => simp [jsDelete, typeFieldOk]
  | str s => simp [jsDelete, typeFieldOk]

theorem sem_id_ne_at_type {s : String} (h : is_semantic_id s = true) : s ≠ "@type" := by
  intro hh
  rw [hh] at h
  exact absurd h (by decide)

theorem create_writesOk (root : String) (st : FsState) (S : String) :
    writesOk (operation_fs_create root st S).2.1 := by
  have hinit : typeFieldOk (jsNormalize (initResource S)) = true := by
    apply typeOk_jsNormalize
    simp [initResource, typeFieldOk, fieldLookup, arrIncludes, jsStrictEq]
  cases hslot : fsGet st (get_file_path root S) <;>
    simp only [operation_fs_create, hslot] <;>
    repeat' split
  all_goals first
    | exact writesOk_nil
    | exact writesOk_write hinit

theorem update_type_writesOk (root : String) (st : FsState) (S : String) (ty : JsValue) :
    writesOk (operation_fs_update_type root st S ty).2.1 := by
  cases ty <;> cases hslot : fsGet st (get_file_path root S) <;>
    simp only [operation_fs_update_type, fs_readParse, hslot, fs_write, notFoundTo,
      List.cons_append, List.nil_append] <;>
    repeat' split
  all_goals first
    | exact writesOk_nil
    | exact writesOk_read _
    | (apply writesOk_read_write
       apply typeOk_jsSet_at_type
       first
         | assumption
         | simp [arrIncludes, List.any_append, jsStrictEq])

theorem update_predicate_writesOk (root : String) (st : FsState) (S P O : String)
    (hgood : presGoodAt st (get_file_path root S)) :
    writesOk (operation_fs_update_predicate root st S P O).2.1 := by
  cases hslot : fsGet st (get_file_path root S) <;>
    simp only [operation_fs_update_predicate, fs_readParse, hslot, fs_write, notFoundTo,
      List.cons_append, List.nil_append] <;>
    repeat' split
  all_goals first
    | exact writesOk_nil
    | exact writesOk_read _
    | (apply writesOk_read_write
       apply typeOk_jsNormalize
       repeat' apply typeOk_jsSet_ne (sem_id_ne_at_type (by assumption))
       exact hgood _ hslot)

theorem delete_predicate_writesOk (root : String) (st : FsState) (S P O : String)
    (hgood : presGoodAt st (get_file_path root S)) :
    writesOk (operation_fs_delete_predicate root st S P O).2.1 := by
  cases hslot : fsGet st (get_file_path root S) <;>
    simp only [operation_fs_delete_predicate, fs_readParse, hslot, fs_write, notFoundTo,
      List.cons_append, List.nil_append] <;>
    repeat' split
  all_goals first
    | exact writesOk_nil
    | exact writesOk_read _
    | (apply writesOk_read_write
       apply typeOk_jsNormalize
       first
         | exact typeOk_jsSet_ne (sem_id_ne_at_type (by assumption)) (hgood _ hslot)
         | exact typeOk_jsDelete_ne (sem_id_ne_at_type (by assumption)) (hgood _ hslot))

theorem update_generic_writesOk (root : String) (st : FsState) (S key : String)
    (value : JsValue) (hk : key ≠ "@type")
    (hgood : presGoodAt st (get_file_path root S)) :
    writesOk (operation_fs_update_generic root st S key value).2.1 := by
  cases hslot : fsGet st (get_file_path root S) <;>
    simp only [operation_fs_update_generic, fs_readParse, hslot, fs_write, notFoundTo,
      List.cons_append, List.nil_append] <;>
    repeat' split
  all_goals first
    | exact writesOk_nil
    | exact writesOk_read _
    | (apply writesOk_read_write
       exact typeOk_jsNormalize (typeOk_jsSet_ne hk (hgood _ hslot)))

theorem update_writesOk (root : String) (st : FsState) (S key : String)
    (value : JsValue) (hgood : presGoodAt st (get_file_path root S)) :
    writesOk (operation_fs_update root st S key value).2.1 := by
  by_cases hkt : key = "@type"
  · subst hkt
    simp only [operation_fs_update]
    rw [if_pos (by simp)]
    exact update_type_writesOk root st S value
  · have hktb : (key == "@type") = false := by simpa using hkt
    simp only [operation_fs_update, hktb, Bool.false_eq_true, if_false]
    cases value with
    | str v =>
        show writesOk (if (is_semantic_id key && is_semantic_id v) = true
            then operation_fs_update_predicate root st S key v
            else operation_fs_update_generic root st S key (.str v)).2.1
        by_cases hsem : (is_semantic_id key && is_semantic_id v) = true
        · rw [if_pos hsem]
          exact update_predicate_writesOk root st S key v hgood
        · rw [if_neg hsem]
          exact update_generic_writesOk root st S key (.str v) hkt hgood
    | undef => exact update_generic_writesOk root st S key .undef hkt hgood
    | null => exact update_generic_writesOk root st S key .null hkt hgood
    | bool b => exact update_generic_writesOk root st S key (.bool b) hkt hgood
    | num n => exact update_generic_writesOk root st S key (.num n) hkt hgood
    | arr elems props => exact update_generic_writesOk root st S key (.arr elems props) hkt hgood
    | obj fields => exact update_generic_writesOk root st S key (.obj fields) hkt hgood

theorem delete_writesOk (root : String) (st : FsState) (S : String)
    (pred ob : Option String) (hgood : presGoodAt st (get_file_path root S)) :
    writesOk (operation_fs_delete root st S pred ob).2.1 := by
  simp only [operation_fs_delete]
  split
  · exact delete_predicate_writesOk root st S (jsOptStr pred) (jsOptStr ob) hgood
  · cases hslot : fsGet st (get_file_path root S) <;>
      simp only [hslot] <;>
      repeat' split
    all_goals first
      | exact writesOk_nil
      | exact writesOk_unlink _

/-- C8: invariant kept by every operation: every JSON object the adapter
itself writes has an "@type" field that is an array containing
"rdfs:Resource". CREATE initializes it unconditionally; an UPDATE of the
"@type" key appends "rdfs:Resource" whenever the type list omits it; and the
predicate, generic-key and delete operations preserve the invariant of the
resource they rewrite, since "@type" is dispatched before the generic key
path and is not a semantic id, so they never touch the "@type" field. -/
theorem claim_C8_type_invariant
    (root : String) (st : FsState) (S key : String) (value ty : JsValue)
    (P O : String) (pred ob : Option String) :
    writesOk (operation_fs_create root st S).2.1
    ∧ writesOk (operation_fs_update_type root st S ty).2.1
    ∧ (presGoodAt st (get_file_path root S) →
        writesOk (operation_fs_update root st S key value).2.1)
    ∧ (presGoodAt st (get_file_path root S) →
        writesOk (operation_fs_update_predicate root st S P O).2.1)
    ∧ (presGoodAt st (get_file_path root S) →
        writesOk (operation_fs_delete_predicate root st S P O).2.1)
    ∧ (presGoodAt st (get_file_path root S) →
        writesOk (operation_fs_delete root st S pred ob).2.1) :=
  ⟨create_writesOk root st S, update_type_writesOk root st S ty,
   fun h => update_writesOk root st S key value h,
   fun h => update_predicate_writesOk root st S P O h,
   fun h => delete_predicate_writesOk root st S P O h,
   fun h => delete_writesOk root st S pred ob h⟩

/-- Witness for C8: a fresh CREATE and a predicate UPDATE over a store
holding the initial resource, whose content satisfies the invariant. -/
theorem claim_C8_type_invariant_witness :
    writesOk (operation_fs_create "r" [] "a:s").2.1
    ∧ writesOk (operation_fs_update "r"
        [(get_file_path "r" "a:s", .present (initResource "a:s"))]
        "a:s" "a:p" (.str "a:o")).2.1 := by
  have hg : presGoodAt [(get_file_path "r" "a:s", .present (initResource "a:s"))]
      (get_file_path "r" "a:s") := by
    intro v hv
    have hv' : FileSlot.present (initResource "a:s") = FileSlot.present v := hv
    cases hv'
    decide
  exact ⟨(claim_C8_type_invariant "r" [] "a:s" "a:p" (.str "a:o") .null
      "a:p" "a:o" none none).1,
    (claim_C8_type_invariant "r"
      [(get_file_path "r" "a:s", .present (initResource "a:s"))] "a:s" "a:p"
      (.str "a:o") .null "a:p" "a:o" none none).2.2.1 hg⟩

/-- C2: the store facade returns the count of quads actually changed, not
the count submitted: adding a quad for the first time returns 1 and adding
the identical quad again returns 0; deleting a present quad returns 1 and
deleting an absent quad returns 0 and changes nothing. -/
theorem claim_C2_changed_count (ds : List Quad) (q : Quad) :
    (q ∉ ds →
      (storeAdd [q] ds).1 = 1 ∧ (storeAdd [q] (storeAdd [q] ds).2).1 = 0)
    ∧ (q ∈ ds → storeAdd [q] ds = (0, ds))
    ∧ (q ∈ ds →
      (storeDelete [q] ds).1 = 1 ∧ (storeDelete [q] (storeDelete [q] ds).2).1 = 0)
    ∧ (q ∉ ds → storeDelete [q] ds = (0, ds)) := by
  refine ⟨?_, ?_, ?_, ?_⟩
  · intro h
    refine ⟨by simp [storeAdd, h], ?_⟩
    simp [storeAdd, h]
  · intro h
    simp [storeAdd, h]
  · intro h
    refine ⟨by simp [storeDelete, h], ?_⟩
    simp [storeDelete, h, List.mem_filter]
  · intro h
    simp [storeDelete, h]

/-- Witness for C2 with a concrete quad over the one-element and the empty
dataset. -/
theorem claim_C2_changed_count_witness :
    ((storeAdd [("s", "p", "o")] []).1 = 1
      ∧ (storeAdd [("s", "p", "o")] (storeAdd [("s", "p", "o")] []).2).1 = 0)
    ∧ storeAdd [("s", "p", "o")] [("s", "p", "o")] = (0, [("s", "p", "o")])
    ∧ ((storeDelete [("s", "p", "o")] [("s", "p", "o")]).1 = 1
      ∧ (storeDelete [("s", "p", "o")]
          (storeDelete [("s", "p", "o")] [("s", "p", "o")]).2).1 = 0)
    ∧ storeDelete [("s", "p", "o")] [] = (0, []) := by
  refine ⟨?_, ?_, ?_, ?_⟩
  · exact (claim_C2_changed_count [] ("s", "p", "o")).1 (by decide)
  · exact (claim_C2_changed_count [("s", "p", "o")] ("s", "p", "o")).2.1 (by decide)
  · exact (claim_C2_changed_count [("s", "p", "o")] ("s", "p", "o")).2.2.1 (by decide)
  · exact (claim_C2_changed_count [] ("s", "p", "o")).2.2.2 (by decide)

theorem schedRun_succ (D : Nat) (sched : Nat → Option (List String → List String))
    (n : Nat) :
    schedRun D sched (n + 1) = schedTick D sched n (schedRun D sched n) := rfl

theorem schedRun_wait (D : Nat) (sched : Nat → Option (List String → List String))
    (k : Nat) :
    ∀ (a : Nat) (ds : List String) (T : Nat) (w : List (Nat × List String)),
      (∀ u, a ≤ u → u < a + k → sched u = none) →
      schedRun D sched a = ⟨ds, some T, w⟩ →
      a + k ≤ T →
      schedRun D sched (a + k) = ⟨ds, some T, w⟩ := by
  induction k with
  | zero =>
      intro a ds T w hq hrun hT
      simpa using hrun
  | succ k ih =>
      intro a ds T w hq hrun hT
      have hprev := ih a ds T w (fun u h1 h2 => hq u h1 (by omega)) hrun (by omega)
      have hs : sched (a + k) = none := hq (a + k) (by omega) (by omega)
      have hh : a + (k + 1) = (a + k) + 1 := by omega
      rw [hh, schedRun_succ, hprev]
      simp only [schedTick, hs]
      rw [if_neg (by omega : ¬ T ≤ a + k)]

theorem schedRun_quiet_none (D : Nat) (sched : Nat → Option (List String → List String))
    (k : Nat) :
    ∀ (a : Nat) (ds : List String) (w : List (Nat × List String)),
      (∀ u, a ≤ u → u < a + k → sched u = none) →
      schedRun D sched a = ⟨ds, none, w⟩ →
      schedRun D sched (a + k) = ⟨ds, none, w⟩ := by
  induction k with
  | zero =>
      intro a ds w hq hrun
      simpa using hrun
  | succ k ih =>
      intro a ds w hq hrun
      have hprev := ih a ds w (fun u h1 h2 => hq u h1 (by omega)) hrun
      have hs : sched (a + k) = none := hq (a + k) (by omega) (by omega)
      have hh : a + (k + 1) = (a + k) + 1 := by omega
      rw [hh, schedRun_succ, hprev]
      simp only [schedTick, hs]

theorem schedRun_fire (D : Nat) (sched : Nat → Option (List String → List String))
    (a b T : Nat) (ds : List String) (w : List (Nat × List String))
    (hq : ∀ u, a ≤ u → u < b → sched u = none)
    (hrun : schedRun D sched a = ⟨ds, some T, w⟩)
    (haT : a ≤ T) (hTb : T < b) :
    schedRun D sched b = ⟨ds, none, w ++ [(T, ds)]⟩ := by
  have hwait := schedRun_wait D sched (T - a) a ds T w
    (fun u h1 h2 => hq u h1 (by omega)) hrun (by omega)
  have haTa : a + (T - a) = T := by omega
  rw [haTa] at hwait
  have hsT : sched T = none := hq T (by omega) (by omega)
  have hT1 : schedRun D sched (T + 1) = ⟨ds, none, w ++ [(T, ds)]⟩ := by
    rw [schedRun_succ, hwait]
    simp only [schedTick, hsT]
    rw [if_pos (le_refl T)]
  have hrest := schedRun_quiet_none D sched (b - (T + 1)) (T + 1) ds (w ++ [(T, ds)])
    (fun u h1 h2 => hq u (by omega) (by omega)) hT1
  have hb : (T + 1) + (b - (T + 1)) = b := by omega
  rw [hb] at hrest
  exact hrest

theorem schedRun_chain (D : Nat) (sched : Nat → Option (List String → List String)) :
    ∀ (rest : List (Nat × (List String → List String))) (t : Nat) (ds : List String)
      (w : List (Nat × List String)),
      0 < D →
      List.Chain' (fun a b => a < b ∧ b < a + D) (t :: rest.map Prod.fst) →
      (∀ p ∈ rest, sched p.1 = some p.2) →
      (∀ u, t < u → (∀ p ∈ rest, u ≠ p.1) → sched u = none) →
      schedRun D sched (t + 1) = ⟨ds, some (t + D), w⟩ →
      ∀ N, lastTimeFrom t rest + D < N →
        schedRun D sched N
          = ⟨rest.foldl (fun d p => p.2 d) ds, none,
             w ++ [(lastTimeFrom t rest + D, rest.foldl (fun d p => p.2 d) ds)]⟩ := by
  intro rest
  induction rest with
  | nil =>
      intro t ds w hD hchain hsched hq hrun N hN
      simp only [lastTimeFrom, List.foldl_nil] at *
      exact schedRun_fire D sched (t + 1) N (t + D) ds w
        (fun u h1 h2 => hq u (by omega) (fun p hp => absurd hp (List.not_mem_nil p)))
        hrun (by omega) hN
  | cons p rest ih =>
      intro t ds w hD hchain hsched hq hrun N hN
      have hchain' : (t < p.1 ∧ p.1 < t + D)
          ∧ List.Chain' (fun a b => a < b ∧ b < a + D) (p.1 :: rest.map Prod.fst) := by
        simpa [List.chain'_cons] using hchain
      have ht1 : t < p.1 := hchain'.1.1
      have hp1D : p.1 < t + D := hchain'.1.2
      have hlt : ∀ x ∈ rest.map Prod.fst, p.1 < x := by
        have h1 : List.Chain' (fun a b : Nat => a < b) (p.1 :: rest.map Prod.fst) :=
          hchain'.2.imp (fun a b h => h.1)
        have h2 := List.chain'_iff_pairwise.mp h1
        exact (List.pairwise_cons.mp h2).1
      have hwait := schedRun_wait D sched (p.1 - (t + 1)) (t + 1) ds (t + D) w
        (fun u h1 h2 => hq u (by omega) (fun pp hpp => by
          rcases List.mem_cons.mp hpp with h | h
          · subst h
            omega
          · have := hlt pp.1 (List.mem_map_of_mem Prod.fst h)
            omega))
        hrun (by omega)
      have hw1 : (t + 1) + (p.1 - (t + 1)) = p.1 := by omega
      rw [hw1] at hwait
      have hstep : schedRun D sched (p.1 + 1) = ⟨p.2 ds, some (p.1 + D), w⟩ := by
        rw [schedRun_succ, hwait]
        simp only [schedTick, hsched p (List.mem_cons_self p rest)]
      have hrec := ih p.1 (p.2 ds) w hD hchain'.2
        (fun pp hpp => hsched pp (List.mem_cons_of_mem _ hpp))
        (fun u hu hne2 => hq u (by omega) (fun pp hpp => by
          rcases List.mem_cons.mp hpp with h | h
          · subst h
            omega
          · exact hne2 pp h))
        hstep N (by simpa [lastTimeFrom] using hN)
      simpa [lastTimeFrom, List.foldl_cons] using hrec

theorem schedOf_mem {muts : List (Nat × (List String → List String))}
    (hpw : List.Pairwise (fun a b => a.1 < b.1) muts) :
    ∀ p ∈ muts, schedOf muts p.1 = some p.2 := by
  induction muts with
  | nil =>
      intro p hp
      exact absurd hp (List.not_mem_nil p)
  | cons q l ih =>
      intro p hp
      rcases List.mem_cons.mp hp with h | h
      · subst h
        simp [schedOf, List.find?_cons]
      · have hq1 : q.1 < p.1 := (List.pairwise_cons.mp hpw).1 p h
        have hne : (q.1 == p.1) = false := by
          simp only [beq_eq_false_iff_ne, ne_eq]
          omega
        have hrec := ih (List.pairwise_cons.mp hpw).2 p h
        simpa [schedOf, List.find?_cons, hne] using hrec

theorem schedOf_not_mem {muts : List (Nat × (List String → List String))} {u : Nat}
    (h : ∀ p ∈ muts, u ≠ p.1) : schedOf muts u = none := by
  unfold schedOf
  have hfind : muts.find? (fun m => m.1 == u) = none := by
    rw [List.find?_eq_none]
    intro p hp
    simp only [beq_eq_false_iff_ne, ne_eq, Bool.not_eq_true]
    exact fun hh => h p hp hh.symm
  rw [hfind]
  rfl

/-- C1: modelled from the spec, the debounced write-back scheduler coalesces
every burst of mutations whose consecutive gaps are below the debounce delay
D into exactly one write: the run performs a single write-back, exactly D
ticks after the last mutation of the burst, containing the cumulative effect
of all mutations, and no mutation tick itself writes. -/
theorem claim_C1_debounce_coalescing
    (D : Nat) (muts : List (Nat × (List String → List String))) (N : Nat)
    (hD : 0 < D)
    (hne : muts ≠ [])
    (hchain : List.Chain' (fun a b => a < b ∧ b < a + D) (muts.map Prod.fst))
    (hN : lastMutTime muts + D < N) :
    schedRun D (schedOf muts) N
      = ⟨applyMuts muts, none, [(lastMutTime muts + D, applyMuts muts)]⟩ := by
  rcases muts with _ | ⟨m, rest⟩
  · exact absurd rfl hne
  have hpw : List.Pairwise (fun a b : Nat × (List String → List String) => a.1 < b.1)
      (m :: rest) := by
    have h1 : List.Chain' (fun a b : Nat => a < b) ((m :: rest).map Prod.fst) :=
      hchain.imp (fun a b h => h.1)
    have h2 := List.chain'_iff_pairwise.mp h1
    exact List.pairwise_map.mp h2
  have hsched := schedOf_mem hpw
  have hmlt : ∀ x ∈ rest.map Prod.fst, m.1 < x := by
    have h1 : List.Chain' (fun a b : Nat => a < b) (m.1 :: rest.map Prod.fst) := by
      simpa using hchain.imp (fun a b h => h.1)
    exact (List.pairwise_cons.mp (List.chain'_iff_pairwise.mp h1)).1
  have hpre := schedRun_quiet_none D (schedOf (m :: rest)) m.1 0 [] []
    (fun u h1 h2 => schedOf_not_mem (fun p hp => by
      rcases List.mem_cons.mp hp with h | h
      · subst h
        omega
      · have := hmlt p.1 (List.mem_map_of_mem Prod.fst h)
        omega)) rfl
  simp only [Nat.zero_add] at hpre
  have hstep : schedRun D (schedOf (m :: rest)) (m.1 + 1)
      = ⟨m.2 [], some (m.1 + D), []⟩ := by
    rw [schedRun_succ, hpre]
    simp only [schedTick, hsched m (List.mem_cons_self m rest)]
  have hrec := schedRun_chain D (schedOf (m :: rest)) rest m.1 (m.2 []) []
    hD (by simpa using hchain)
    (fun p hp => hsched p (List.mem_cons_of_mem _ hp))
    (fun u hu hne2 => schedOf_not_mem (fun p hp => by
      rcases List.mem_cons.mp hp with h | h
      · subst h
        omega
      · exact hne2 p h))
    hstep N (by simpa [lastMutTime] using hN)
  simpa [lastMutTime, applyMuts, List.foldl_cons] using hrec

/-- Witness for C1: three mutations at times 0, 2 and 4 with debounce delay
5; the run up to time 12 performs exactly one write, at time 9, holding the
cumulative dataset. -/
theorem claim_C1_debounce_coalescing_witness :
    schedRun 5 (schedOf [(0, fun d => "A" :: d), (2, fun d => "B" :: d),
        (4, fun d => "C" :: d)]) 12
      = ⟨["C", "B", "A"], none, [(9, ["C", "B", "A"])]⟩ := by
  have h := claim_C1_debounce_coalescing 5
    [(0, fun d => "A" :: d), (2, fun d => "B" :: d), (4, fun d => "C" :: d)] 12
    (by decide) (by simp)
    (by simp only [List.map_cons, List.map_nil, List.chain'_cons,
      List.chain'_singleton, and_true]
        omega)
    (by decide)
  simpa [lastMutTime, lastTimeFrom, applyMuts] using h
